import Mathlib

/-!
Verification of the M&M MRP part-search / attribute-validation core.

This file gives a shallow embedding, in Lean, of the pure logic of the
repository's services (`src/services/parts.ts`, `src/services/inventory.ts`,
`src/services/bom.ts` and their evolving variants, plus the client-side
assemblies-available computation).  JavaScript strings are modelled as Lean
`String`s over their code points; JavaScript `number`s are modelled as exact
rationals (`ℚ`); nullable values as `Option`; thrown exceptions as
`Except String`.  String helpers (`trim`, `toLowerCase`, the few regular
expressions the source uses) are implemented character by character to match
the ECMAScript behaviour on the character sets the application feeds them.
-/

namespace MRP

/-- The character set recognised by JavaScript `String.prototype.trim` and by
the regex class `\s`, restricted to the ASCII range (space, tab, LF, VT, FF,
CR).  The application only ever feeds ASCII data through these helpers. -/
def jsIsWs (c : Char) : Bool :=
  c = ' ' || c = '\t' || c = '\n' || c = Char.ofNat 11 || c = Char.ofNat 12 || c = '\r'

/-- JavaScript `value.trim()`. -/
def jsTrim (s : String) : String :=
  ⟨((s.toList.dropWhile jsIsWs).reverse.dropWhile jsIsWs).reverse⟩

/-- JavaScript `value.toLowerCase()` (ASCII case mapping). -/
def jsToLower (s : String) : String :=
  ⟨s.toList.map Char.toLower⟩

/-- The single-quote character (used by the rule grammar and enum parser). -/
def quoteChar : Char := Char.ofNat 39

/-- State machine for the regex `/'([^']+)'/g`: `none` means no quote is
open; `some acc` means a quote is open with reversed content `acc`.  A quote
closing a non-empty content emits a match and resumes after it; a quote
immediately after an opening quote restarts the match at the second quote;
an unterminated quote yields nothing — exactly the ECMAScript global-regex
scan. -/
def extractQuotedGo : List Char → Option (List Char) → List (List Char)
  | [], _ => []
  | c :: rest, none =>
    if c = quoteChar then extractQuotedGo rest (some [])
    else extractQuotedGo rest none
  | c :: rest, some acc =>
    if c = quoteChar then
      if acc = [] then extractQuotedGo rest (some [])
      else acc.reverse :: extractQuotedGo rest none
    else extractQuotedGo rest (some (c :: acc))

/-- Every maximal single-quoted, non-empty literal of a character list,
scanning left to right (`matchAll(/'([^']+)'/g)`). -/
def extractQuoted (cs : List Char) : List (List Char) :=
  extractQuotedGo cs none

/-- The single-quoted literals of a rule / enum body, as strings. -/
def quotedLiterals (s : String) : List String :=
  (extractQuoted s.toList).map (fun cs => ⟨cs⟩)

/-- Result of `evaluateRequirement` (`parts.ts`). -/
structure Requirement where
  required : Bool
  visible : Bool
deriving DecidableEq, Repr

/-- `evaluateRequirement(rule, subtypeValue)` from `src/services/parts.ts`
lines 282–306: empty/absent rule ⇒ optional+visible; literal `yes` / `no`
after trim+lowercase; otherwise membership of the normalized subtype value in
the rule's single-quoted literals drives both flags. -/
def evaluateRequirement (rule : Option String) (subtypeValue : String) : Requirement :=
  let normalizedRule := match rule with
    | some s => jsToLower (jsTrim s)
    | none => ""
  if normalizedRule = "" then ⟨false, true⟩
  else if normalizedRule = "yes" then ⟨true, true⟩
  else if normalizedRule = "no" then ⟨false, true⟩
  else
    let matchList := (quotedLiterals normalizedRule).map (fun m => jsToLower (jsTrim m))
    let normalizedSubtype := jsToLower (jsTrim subtypeValue)
    if matchList ≠ [] ∧ normalizedSubtype ≠ "" then
      let hasMatch := matchList.any (fun entry => entry = normalizedSubtype)
      ⟨hasMatch, hasMatch⟩
    else ⟨false, true⟩

/-- The required/visible outcome as the specification sentence words it
(claim C1): empty rule optional+visible, unconditional `yes`/`no`, otherwise
case-insensitive membership of a non-empty subtype value among the rule's
single-quoted literals, `{false, true}` in every remaining case.  "Non-empty
subtype value" is read after trimming, consistently with the engine's
normalization of every value it touches. -/
def requirementClaimSpec (rule : Option String) (subtypeValue : String) : Requirement :=
  let ruleText := jsToLower (jsTrim (rule.getD ""))
  if ruleText = "" then ⟨false, true⟩
  else if ruleText = "yes" then ⟨true, true⟩
  else if ruleText = "no" then ⟨false, true⟩
  else
    let literals := quotedLiterals ruleText
    if literals ≠ [] ∧ jsTrim subtypeValue ≠ "" then
      let isMember := literals.any
        (fun l => jsToLower (jsTrim l) = jsToLower (jsTrim subtypeValue))
      ⟨isMember, isMember⟩
    else ⟨false, true⟩

/-- Value of a list of decimal digit characters. -/
def digitsVal (ds : List Char) : Nat :=
  ds.foldl (fun a c => a * 10 + (c.toNat - 48)) 0

/-- Optional leading sign of a JavaScript numeric literal. -/
def splitSign : List Char → Bool × List Char
  | '-' :: t => (true, t)
  | '+' :: t => (false, t)
  | cs => (false, cs)

/-- JavaScript `Number.parseInt(value, 10)`: skip whitespace, optional sign,
longest leading digit run; `NaN` (here `none`) when no digit is found. -/
def jsParseInt (s : String) : Option Int :=
  let cs := s.toList.dropWhile jsIsWs
  let (neg, cs1) := splitSign cs
  let ds := cs1.takeWhile Char.isDigit
  if ds = [] then none
  else
    let n : Int := (digitsVal ds : Nat)
    some (if neg then -n else n)

/-- Strip factors of 10 from a nonzero mantissa, increasing the exponent, so
that a parsed decimal is kept in the canonical form JavaScript would render.
The fuel bounds the number of strips; `m.natAbs` is always enough. -/
def canonDecGo : ℕ → Int → Int → Int × Int
  | 0, m, e => (m, e)
  | fuel + 1, m, e =>
    if m ≠ 0 ∧ m % 10 = 0 then canonDecGo fuel (m / 10) (e + 1) else (m, e)

/-- Canonical scaled-decimal form of `m * 10 ^ e`. -/
def canonDec (m e : Int) : Int × Int :=
  if m = 0 then (0, 0) else canonDecGo m.natAbs m e

/-- The value of a JavaScript `Number.parseFloat` result: a finite decimal
`m * 10 ^ e` (exact-rational model of the double), or an infinity.  `NaN` is
represented by `jsParseFloat` returning `none`. -/
inductive JFloat where
  | fin (m : Int) (e : Int)
  | posInf
  | negInf
deriving DecidableEq, Repr

/-- Exponent suffix of a float literal (`e`/`E`, optional sign, digits);
an incomplete exponent is ignored, as by `parseFloat`. -/
def expVal (cs : List Char) : Int :=
  match cs with
  | c :: t =>
    if c = 'e' ∨ c = 'E' then
      let (eneg, t1) := splitSign t
      let eds := t1.takeWhile Char.isDigit
      if eds = [] then 0
      else if eneg then -(digitsVal eds : Int) else (digitsVal eds : Int)
    else 0
  | [] => 0

/-- JavaScript `Number.parseFloat(value)`: longest leading prefix matching a
decimal literal (optional sign, digits, optional fraction, optional exponent)
or a signed `Infinity`; `none` models `NaN`.  The double's value is kept as
an exact decimal. -/
def jsParseFloat (s : String) : Option JFloat :=
  let cs := s.toList.dropWhile jsIsWs
  let (neg, cs1) := splitSign cs
  if cs1.take 8 = "Infinity".toList then some (if neg then .negInf else .posInf)
  else
    let ip := cs1.takeWhile Char.isDigit
    let r1 := cs1.drop ip.length
    let fp := if r1.head? = some '.' then (r1.drop 1).takeWhile Char.isDigit else []
    let r2 := if r1.head? = some '.' then ((r1.drop 1).drop fp.length) else r1
    if ip = [] ∧ fp = [] then none
    else
      let m0 : Int := (digitsVal (ip ++ fp) : Nat)
      let m1 := if neg then -m0 else m0
      let c := canonDec m1 (expVal r2 - fp.length)
      some (.fin c.1 c.2)

/-- Rational value of a finite scaled decimal. -/
def jfVal (m e : Int) : ℚ := (m : ℚ) * (10 : ℚ) ^ e

/-- `f < b` with JavaScript infinity semantics. -/
def jfBelow (f : JFloat) (b : ℚ) : Bool :=
  match f with
  | .fin m e => decide (jfVal m e < b)
  | .posInf => false
  | .negInf => true

/-- `b < f` with JavaScript infinity semantics. -/
def jfAbove (f : JFloat) (b : ℚ) : Bool :=
  match f with
  | .fin m e => decide (b < jfVal m e)
  | .posInf => true
  | .negInf => false

/-- A run of `k` zero characters. -/
def zeroRun (k : Nat) : String := ⟨List.replicate k '0'⟩

/-- `Number.prototype.toString` on a parsed value, modelled exactly for the
plain-decimal regime (`1e-6 ≤ |x| < 1e21`, the only regime the attribute
values of this application inhabit): canonical sign, no leading zeros, no
trailing fractional zeros, no decimal point on integers. -/
def renderJFloat : JFloat → String
  | .posInf => "Infinity"
  | .negInf => "-Infinity"
  | .fin m e =>
    if m = 0 then "0"
    else
      let sgn := if m < 0 then "-" else ""
      let ds := toString m.natAbs
      if e ≥ 0 then sgn ++ ds ++ zeroRun e.toNat
      else
        let k := (-e).toNat
        if ds.length > k then
          sgn ++ ⟨ds.toList.take (ds.length - k)⟩ ++ "." ++ ⟨ds.toList.drop (ds.length - k)⟩
        else sgn ++ "0." ++ zeroRun (k - ds.length) ++ ds

/-- `normalizeAttributeCode` (`parts.ts` line 278): lower-case and strip one
trailing `_<digits>` disambiguation suffix (the regex `/_\d+$/`). -/
def normalizeAttributeCode (code : String) : String :=
  let lower := (jsToLower code).toList
  let rev := lower.reverse
  let ds := rev.takeWhile Char.isDigit
  if ds ≠ [] ∧ (rev.drop ds.length).head? = some '_' then
    ⟨((rev.drop ds.length).drop 1).reverse⟩
  else ⟨lower⟩

/-- ECMAScript word character (`\w`), as used by the `\b` in `/^int\b/i`. -/
def jsWordChar (c : Char) : Bool := c.isAlphanum || c = '_'

/-- `dt` matches `/^word\b/i`. -/
def startsWordCI (dt w : String) : Bool :=
  ((dt.toList.take w.length).map Char.toLower == w.toList) &&
    (match (dt.toList.drop w.length).head? with
     | some c => !jsWordChar c
     | none => true)

/-- The capture of `/^enum\s*\((.*)\)$/i` over a datatype descriptor, if it
matches (the dot excludes line terminators; `$` is end of string). -/
def enumInner (dt : String) : Option String :=
  let cs := dt.toList
  if (cs.take 4).map Char.toLower = "enum".toList then
    let rest := (cs.drop 4).dropWhile jsIsWs
    match rest with
    | c :: inner =>
      if c = '(' ∧ inner ≠ [] ∧ inner.getLast? = some ')'
          ∧ inner.dropLast.all (fun x => x != '\n' && x != '\r') then
        some ⟨inner.dropLast⟩
      else none
    | [] => none
  else none

/-- Parsed constraint of an attribute datatype descriptor. -/
inductive AttributeConstraint where
  | enum (options : List String)
  | int
  | double
  | text
deriving DecidableEq, Repr

/-- `parseAttributeConstraint` (`parts.ts` lines 400–421): `enum(...)` with
its trimmed non-empty quoted options, else `int`, else `double`, else plain
text. -/
def parseAttributeConstraint (dataType : Option String) : AttributeConstraint :=
  match dataType with
  | none => .text
  | some dt =>
    match enumInner dt with
    | some inner =>
      .enum (((extractQuoted inner.toList).map (fun cs => jsTrim ⟨cs⟩)).filter (fun s => s ≠ ""))
    | none =>
      if startsWordCI dt "int" then .int
      else if startsWordCI dt "double" then .double
      else .text

/-- An attribute definition as resolved for a part type (`parts.ts`). -/
structure PartAttributeDefinition where
  attributeId : ℕ
  code : String
  dataType : Option String
  minValue : Option ℚ
  maxValue : Option ℚ
  unit : Option String
  requiredRule : Option String
deriving DecidableEq, Repr

/-- `options.join(', ')`. -/
def joinComma (l : List String) : String := String.intercalate ", " l

/-- Minimum-bound violation message, mirroring `parsed < min` (numeric bounds
are rendered with Lean's rational printer; no claim depends on their text). -/
def minViolation (label : String) (x : ℚ) : Option ℚ → Option String
  | some m =>
    if x < m then
      some ("\"" ++ label ++ "\" must be greater than or equal to " ++ toString m ++ ".")
    else none
  | none => none

/-- Maximum-bound violation message, mirroring `parsed > max`. -/
def maxViolation (label : String) (x : ℚ) : Option ℚ → Option String
  | some m =>
    if m < x then
      some ("\"" ++ label ++ "\" must be less than or equal to " ++ toString m ++ ".")
    else none
  | none => none

/-- Minimum check first, then maximum, as in the source. -/
def checkRange (label : String) (x : ℚ) (mn mx : Option ℚ) : Option String :=
  match minViolation label x mn with
  | some e => some e
  | none => maxViolation label x mx

/-- Range check for a parsed double, with infinity semantics. -/
def jfCheckRange (label : String) (f : JFloat) (mn mx : Option ℚ) : Option String :=
  match mn with
  | some m =>
    if jfBelow f m then
      some ("\"" ++ label ++ "\" must be greater than or equal to " ++ toString m ++ ".")
    else
      match mx with
      | some M =>
        if jfAbove f M then
          some ("\"" ++ label ++ "\" must be less than or equal to " ++ toString M ++ ".")
        else none
      | none => none
  | none =>
    match mx with
    | some M =>
      if jfAbove f M then
        some ("\"" ++ label ++ "\" must be less than or equal to " ++ toString M ++ ".")
      else none
    | none => none

/-- `validateAttributeValue` (`parts.ts` lines 423–482): trim, accept empty,
then enforce the parsed constraint; int and double values are re-rendered
from their parsed numeric value. -/
def validateAttributeValue (definition : PartAttributeDefinition) (rawValue : String) :
    Except String String :=
  let value := jsTrim rawValue
  if value = "" then .ok ""
  else
    let constraint := parseAttributeConstraint definition.dataType
    let label := if definition.code ≠ "" then definition.code
                 else "Attribute " ++ toString definition.attributeId
    match constraint with
    | .enum options =>
      if options ≠ [] then
        if options.any (fun o => jsToLower o = jsToLower value) then .ok value
        else .error ("\"" ++ label ++ "\" must be one of: " ++ joinComma options)
      else .ok value
    | .int =>
      match jsParseInt value with
      | none => .error ("\"" ++ label ++ "\" must be a whole number.")
      | some parsed =>
        match checkRange label (parsed : ℚ) definition.minValue definition.maxValue with
        | some e => .error e
        | none => .ok (toString parsed)
    | .double =>
      match jsParseFloat value with
      | none => .error ("\"" ++ label ++ "\" must be a number.")
      | some parsed =>
        match jfCheckRange label parsed definition.minValue definition.maxValue with
        | some e => .error e
        | none => .ok (renderJFloat parsed)
    | .text => .ok value

/-- Acceptance condition as the specification words it (claim C3): empty
passes; enum passes iff the options list is empty or the trimmed value
case-insensitively equals an option; int/double pass iff the value parses and
lies within the declared bounds; anything else passes. -/
def validateClaimPasses (definition : PartAttributeDefinition) (rawValue : String) : Bool :=
  let t := jsTrim rawValue
  if t = "" then true
  else
    match parseAttributeConstraint definition.dataType with
    | .enum options =>
      options.isEmpty || options.any (fun o => jsToLower o = jsToLower t)
    | .int =>
      match jsParseInt t with
      | none => false
      | some n =>
        (match definition.minValue with
         | some m => decide (¬ ((n : ℚ) < m))
         | none => true) &&
        (match definition.maxValue with
         | some M => decide (¬ (M < (n : ℚ)))
         | none => true)
    | .double =>
      match jsParseFloat t with
      | none => false
      | some f =>
        (match definition.minValue with
         | some m => !jfBelow f m
         | none => true) &&
        (match definition.maxValue with
         | some M => !jfAbove f M
         | none => true)
    | .text => true

/-! ## Relational state and the upsert transaction -/

/-- A `partmaster` row (the scalar part fields the upsert touches). -/
structure PartRow where
  pkey : ℕ
  partNumber : String
  descText : Option String
  revision : Option String
  stockUom : Option String
  isc : Option String
  partTypeId : Option ℕ
deriving DecidableEq, Repr

/-- A `part_data` row: one attribute value owned by a part. -/
structure PartDataRow where
  pkey : ℕ
  attributeId : ℕ
  value : Option String
deriving DecidableEq, Repr

/-- An `attribute` metadata row. -/
structure AttributeRow where
  attributeId : ℕ
  code : Option String
  dataType : Option String
  minValue : Option ℚ
  maxValue : Option ℚ
  unit : Option String
  requiredRule : Option String
deriving DecidableEq, Repr

/-- An `attribute_part_type_map` row. -/
structure AttrTypeMapRow where
  partTypeId : ℕ
  attributeId : ℕ
deriving DecidableEq, Repr

/-- The relational state the part services read and write.  `nextPkey` models
the autoincrement key supply of `partmaster`. -/
structure Db where
  partmaster : List PartRow
  partData : List PartDataRow
  attributeTable : List AttributeRow
  attrTypeMap : List AttrTypeMapRow
  nextPkey : ℕ
deriving DecidableEq, Repr

/-- `resolveAttributeDefinitions` (`parts.ts` lines 676–699): every mapping of
the part type joined with its attribute row (mappings whose attribute is
missing are dropped), in table order.  The source stores the result in a
`Map` keyed by attribute id; it is modelled as the underlying association
list, which coincides with the `Map` whenever the ids are distinct. -/
def resolveAttributeDefinitions (db : Db) (partTypeId : ℕ) : List PartAttributeDefinition :=
  (db.attrTypeMap.filter (fun m => m.partTypeId == partTypeId)).filterMap (fun m =>
    (db.attributeTable.find? (fun a => a.attributeId == m.attributeId)).map (fun a =>
      { attributeId := m.attributeId
        code := a.code.getD (toString m.attributeId)
        dataType := a.dataType
        minValue := a.minValue
        maxValue := a.maxValue
        unit := a.unit
        requiredRule := a.requiredRule }))

/-- One submitted attribute of an upsert payload. -/
structure PayloadAttribute where
  attributeId : ℕ
  value : String
deriving DecidableEq, Repr

/-- The upsert payload (`PartUpsertPayload` in `parts.ts`). -/
structure PartUpsertPayload where
  partNumber : String
  description : Option String
  revision : Option String
  stockUom : Option String
  status : Option String
  partTypeId : Option ℕ
  attributes : List PayloadAttribute
deriving DecidableEq, Repr

/-- `normalizeAttributes` (`parts.ts` lines 701–724): keep only attributes
whose id is defined for the part type, validating each kept value; the first
validation failure aborts (the `map` callback throws). -/
def normalizeAttributes :
    List PayloadAttribute → List PartAttributeDefinition → Except String (List (ℕ × String))
  | [], _ => .ok []
  | item :: rest, definitions =>
    match definitions.find? (fun d => d.attributeId == item.attributeId) with
    | none => normalizeAttributes rest definitions
    | some d =>
      match validateAttributeValue d item.value with
      | .error e => .error e
      | .ok v =>
        match normalizeAttributes rest definitions with
        | .error e => .error e
        | .ok tail => .ok ((item.attributeId, v) :: tail)

/-- `findSubtypeValue` (`parts.ts` lines 376–392): first definition whose
normalized code is `subtype` and that has a submitted value yields that value
trimmed; otherwise the empty string. -/
def findSubtypeValue (attrs : List (ℕ × String)) :
    List PartAttributeDefinition → String
  | [] => ""
  | d :: rest =>
    if normalizeAttributeCode d.code = "subtype" then
      match attrs.find? (fun a => a.1 == d.attributeId) with
      | some a => jsTrim a.2
      | none => findSubtypeValue attrs rest
    else findSubtypeValue attrs rest

/-- The codes of the definitions that are required against the submitted
subtype value but have no non-empty submitted value, in definition order. -/
def missingRequiredCodes (attrs : List (ℕ × String))
    (definitions : List PartAttributeDefinition) : List String :=
  let subtypeValue := findSubtypeValue attrs definitions
  (definitions.filter (fun d =>
    (evaluateRequirement d.requiredRule subtypeValue).required &&
      (match attrs.find? (fun a => a.1 == d.attributeId) with
       | none => true
       | some a => jsTrim a.2 == ""))).map (fun d => d.code)

/-- `assertRequiredAttributes` (`parts.ts` lines 726–746). -/
def assertRequiredAttributes (attrs : List (ℕ × String))
    (definitions : List PartAttributeDefinition) : Except String Unit :=
  let missing := missingRequiredCodes attrs definitions
  if missing = [] then .ok ()
  else .error ("Missing required attributes: " ++ joinComma missing)

/-- `toSafeString` over a nullable field: trim a string, anything else is
empty. -/
def toSafeString (v : Option String) : String := jsTrim (v.getD "")

/-- `toSafeString(x) || null`: an empty trimmed field is stored as NULL. -/
def orNullField (v : Option String) : Option String :=
  let s := toSafeString v
  if s = "" then none else some s

/-- One attribute of a part detail (`PartDetail.attributes` in `parts.ts`). -/
structure PartDetailAttr where
  attributeId : ℕ
  code : String
  value : String
  required : Bool
  requiredRule : Option String
deriving DecidableEq, Repr

/-- `PartDetail` (`parts.ts`). -/
structure PartDetail where
  partNumber : String
  description : String
  revision : String
  stockUom : String
  status : String
  partTypeId : Option ℕ
  attributes : List PartDetailAttr
deriving DecidableEq, Repr

/-- `getPartDetail` (`parts.ts` lines 628–674): look the part up by trimmed
number, join each attribute row with its metadata, locate the subtype value
among the stored attributes, and flag each attribute's required-ness. -/
def getPartDetail (db : Db) (partNumber : String) : Option PartDetail :=
  let trimmed := jsTrim partNumber
  if trimmed = "" then none
  else
    match db.partmaster.find? (fun r => r.partNumber == trimmed) with
    | none => none
    | some part =>
      let rows := db.partData.filter (fun r => r.pkey == part.pkey)
      let attributeDetails : List PartDetailAttr := rows.map (fun entry =>
        let arec := db.attributeTable.find? (fun a => a.attributeId == entry.attributeId)
        let rawCode := (arec.bind (fun a => a.code)).getD ""
        { attributeId := entry.attributeId
          code := if rawCode ≠ "" then rawCode else toString entry.attributeId
          value := entry.value.getD ""
          required := false
          requiredRule := arec.bind (fun a => a.requiredRule) })
      let subtypeValue :=
        ((attributeDetails.find? (fun a => normalizeAttributeCode a.code == "subtype")).map
          (fun a => a.value)).getD ""
      let attributes := attributeDetails.map (fun a =>
        { a with required := (evaluateRequirement a.requiredRule subtypeValue).required })
      some { partNumber := part.partNumber
             description := part.descText.getD ""
             revision := part.revision.getD ""
             stockUom := part.stockUom.getD ""
             status := part.isc.getD ""
             partTypeId := part.partTypeId
             attributes := attributes }

/-- `upsertPart` (`parts.ts` lines 748–823) as a state transformer: the
returned state is the store after the call (unchanged whenever an error is
raised before the transaction).  Validation order, error messages and the
delete-all-then-insert attribute replacement follow the source; the
`as PartDetail` non-null assertion on the post-commit read is modelled by an
error on the (provably unreachable) `none` branch. -/
def upsertPart (payload : PartUpsertPayload) (allowCreate : Bool) (db : Db) :
    Except String PartDetail × Db :=
  let partNumber := jsTrim payload.partNumber
  if partNumber = "" then (.error "A part number is required.", db)
  else
    let existingPart := db.partmaster.find? (fun r => r.partNumber == partNumber)
    let effectivePartTypeId := match payload.partTypeId with
      | some t => some t
      | none => existingPart.bind (fun p => p.partTypeId)
    match effectivePartTypeId with
    | none =>
      (.error (if existingPart.isNone then "A Part Type is required to create a part."
               else "A Part Type must be selected before editing this part."), db)
    | some t =>
      if t = 0 then
        (.error (if existingPart.isNone then "A Part Type is required to create a part."
                 else "A Part Type must be selected before editing this part."), db)
      else
        let attributeDefinitions := resolveAttributeDefinitions db t
        match normalizeAttributes payload.attributes attributeDefinitions with
        | .error e => (.error e, db)
        | .ok normalizedAttributes =>
          match (if attributeDefinitions.isEmpty then Except.ok ()
                 else assertRequiredAttributes normalizedAttributes attributeDefinitions) with
          | .error e => (.error e, db)
          | .ok _ =>
            if existingPart.isNone && !allowCreate then (.error "Part does not exist.", db)
            else
              let result : PartRow × List PartRow × ℕ := match existingPart with
                | some p =>
                  let updated : PartRow :=
                    { p with
                      descText := orNullField payload.description
                      revision := orNullField payload.revision
                      stockUom := orNullField payload.stockUom
                      isc := orNullField payload.status
                      partTypeId := some t }
                  (updated,
                   db.partmaster.map (fun r => if r.partNumber == partNumber then updated else r),
                   db.nextPkey)
                | none =>
                  let created : PartRow :=
                    { pkey := db.nextPkey
                      partNumber := partNumber
                      descText := orNullField payload.description
                      revision := orNullField payload.revision
                      stockUom := orNullField payload.stockUom
                      isc := orNullField payload.status
                      partTypeId := some t }
                  (created, db.partmaster ++ [created], db.nextPkey + 1)
              let partKey := result.1.pkey
              let newPartData :=
                db.partData.filter (fun r => r.pkey != partKey) ++
                  normalizedAttributes.map (fun a =>
                    { pkey := partKey, attributeId := a.1
                      value := if a.2 = "" then none else some a.2 : PartDataRow })
              let db' : Db :=
                { partmaster := result.2.1, partData := newPartData
                  attributeTable := db.attributeTable, attrTypeMap := db.attrTypeMap
                  nextPkey := result.2.2 }
              match getPartDetail db' result.1.partNumber with
              | some detail => (.ok detail, db')
              | none => (.error "Part detail unavailable.", db')

/-! ## Availability aggregation -/

/-- An `inventorylots` row. -/
structure LotRow where
  partNumber : String
  quantity : ℚ
deriving DecidableEq, Repr

/-- An `inventorytags` row (`InventoryQuantity` may be NULL). -/
structure TagRow where
  partNumber : String
  inventoryQuantity : Option ℚ
deriving DecidableEq, Repr

/-- Grouped `SUM(Quantity)` of the lots of one part (`COALESCE` to zero when
no row exists). -/
def onHandFor (lots : List LotRow) (p : String) : ℚ :=
  ((lots.filter (fun r => r.partNumber == p)).map (fun r => r.quantity)).sum

/-- Grouped `SUM(InventoryQuantity)` of the non-NULL tags of one part. -/
def allocatedFor (tags : List TagRow) (p : String) : ℚ :=
  ((tags.filter (fun r => r.partNumber == p)).filterMap (fun r => r.inventoryQuantity)).sum

/-- `GREATEST(COALESCE(onHand, 0) - COALESCE(allocated, 0), 0)` — the per-part
available quantity computed by the search and BOM queries. -/
def sqlAvailableQuantity (lots : List LotRow) (tags : List TagRow) (p : String) : ℚ :=
  max (onHandFor lots p - allocatedFor tags p) 0

/-- The `Math.max(0, asNumber(raw))` clamp `mapPartResult` applies to the raw
available-quantity column (`parts.ts` lines 238–243). -/
def mapPartResultAvailable (raw : ℚ) : ℚ := max 0 raw

/-- Available quantity as delivered in a part search result: the SQL value
clamped again by `mapPartResult`. -/
def partSearchAvailable (lots : List LotRow) (tags : List TagRow) (p : String) : ℚ :=
  mapPartResultAvailable (sqlAvailableQuantity lots tags p)

/-- `quantityAvailable` of `getInventorySnapshot` (`inventory.ts` lines
54–91): global on-hand minus global allocated, clamped at zero. -/
def snapshotQuantityAvailable (lots : List LotRow) (tags : List TagRow) : ℚ :=
  max 0 ((lots.map (fun r => r.quantity)).sum - (tags.filterMap (fun r => r.inventoryQuantity)).sum)

/-! ## Bill-of-materials ordering and assemblies-available -/

/-- The ordering-relevant columns of a `bom` row. -/
structure BomRow where
  assembly : String
  itemSequence : String
  component : String
deriving DecidableEq, Repr

/-- The `CASE WHEN b.ItemSequence REGEXP '^[0-9]+$' THEN CAST(b.ItemSequence
AS UNSIGNED) ELSE 999999 END` sort key of the BOM queries (`bom.ts` and its
variants): a digits-only sequence sorts by its numeric value, anything else
by the sentinel. -/
def seqSortKey (s : String) : ℕ :=
  if s ≠ "" ∧ s.toList.all Char.isDigit then digitsVal s.toList else 999999

/-- The full `ORDER BY` key: assembly, numeric-aware sequence, component
(binary collation modelled as code-point order). -/
def bomSortKey (r : BomRow) : Lex (List Char × Lex (ℕ × List Char)) :=
  toLex (r.assembly.toList, toLex (seqSortKey r.itemSequence, r.component.toList))

/-- The `ORDER BY` comparison as a relation on rows. -/
def bomLeProp (a b : BomRow) : Prop := bomSortKey a ≤ bomSortKey b

instance : DecidableRel bomLeProp := fun a b =>
  inferInstanceAs (Decidable (bomSortKey a ≤ bomSortKey b))

/-- The row order produced by `getBillOfMaterials` (the `LIMIT` truncation is
applied after ordering and is irrelevant to the ordering claim): the rows
sorted by the `ORDER BY` key. -/
def orderBomRows (rows : List BomRow) : List BomRow := rows.insertionSort bomLeProp

/-- A BOM line as consumed by the client-side assemblies-available
computation (`quantityPer` and `availableQuantity` are nullable). -/
structure BomAvailItem where
  quantityPer : Option ℚ
  availableQuantity : Option ℚ
deriving DecidableEq, Repr

/-- One `forEach` step of `computeAssembliesAvailable` (`app.js` lines
421–454): a non-positive (or null, coerced to 0) quantity-per pins the
running minimum at zero; otherwise the clamped stock divided by quantity-per
is folded into the minimum (`none` models the initial `Infinity`). -/
def assembliesStep (acc : Option ℚ) (item : BomAvailItem) : Option ℚ :=
  let qtyPer := item.quantityPer.getD 0
  if qtyPer ≤ 0 then some 0
  else
    let stock := item.availableQuantity.getD 0
    let avail := max stock 0
    let possible := avail / qtyPer
    match acc with
    | none => some possible
    | some m => some (min m possible)

/-- `computeAssembliesAvailable(items)` (`app.js` lines 421–454 and its
duplicate in the unnamed client bundle): zero for an empty list, else the
floor of the folded minimum, clamped at zero. -/
def computeAssembliesAvailable (items : List BomAvailItem) : ℤ :=
  if items.isEmpty then 0
  else
    match items.foldl assembliesStep none with
    | none => 0
    | some m =>
      let fl := ⌊m⌋
      if fl ≥ 0 then fl else 0

/-- The per-line buildable-assemblies ratio named by the specification:
clamped available quantity divided by quantity-per. -/
def assemblyRatio (item : BomAvailItem) : ℚ :=
  max (item.availableQuantity.getD 0) 0 / item.quantityPer.getD 0

/-- Assemblies available as the specification sentence words it (claim C8):
zero on no lines or on any line with non-positive quantity-per, otherwise
`floor(min over all lines of availableQuantity / quantityPer)` with negative
stock clamped to zero. -/
def assembliesClaimSpec (items : List BomAvailItem) : ℤ :=
  match items with
  | [] => 0
  | first :: rest =>
    if (first :: rest).any (fun i => decide (i.quantityPer.getD 0 ≤ 0)) then 0
    else ⌊(rest.map assemblyRatio).foldl min (assemblyRatio first)⌋

/-! ## Part-search LIKE patterns -/

/-- Collapse each maximal whitespace run to a single space
(`replace(/\s+/g, ' ')`). -/
def collapseWsGo : List Char → Bool → List Char
  | [], _ => []
  | c :: rest, inWs =>
    if jsIsWs c then
      if inWs then collapseWsGo rest true
      else ' ' :: collapseWsGo rest true
    else c :: collapseWsGo rest false

/-- JavaScript `value.replace(/\s+/g, ' ')`. -/
def collapseWs (s : String) : String := ⟨collapseWsGo s.toList false⟩

/-- A lower-case ASCII alphanumeric (the class kept by
`replace(/[^a-z0-9]/g, '')`). -/
def isSearchAlnum (c : Char) : Bool :=
  ('a' ≤ c && c ≤ 'z') || ('0' ≤ c && c ≤ '9')

/-- The three part-number LIKE patterns built by `searchParts` (`parts.ts`
lines 493–509): prefix, contains and punctuation-collapsed contains, from
the trimmed, whitespace-collapsed, lower-cased input; `none` when the input
trims to nothing (no predicate).  The input is interpolated as-is: the
source contains no escaping of `%` or `_` and no handling of `*`. -/
def buildPartNumberPatterns (partNumber : String) : Option (String × String × String) :=
  let pn := jsTrim partNumber
  if pn = "" then none
  else
    let normalizedPart := collapseWs pn
    let lowerPart := jsToLower normalizedPart
    let collapsedPart : String := ⟨lowerPart.toList.filter isSearchAlnum⟩
    let prefixWildcard := lowerPart ++ "%"
    let containsWildcard := "%" ++ lowerPart ++ "%"
    let collapsedWildcard :=
      "%" ++ (if collapsedPart = "" then lowerPart else collapsedPart) ++ "%"
    some (prefixWildcard, containsWildcard, collapsedWildcard)

/-- Occurrences of a character in a string. -/
def charCount (s : String) (c : Char) : ℕ := (s.toList.filter (fun x => x == c)).length

/-- Definitions used by the C6 example: an unconditionally required subtype
attribute and an attribute required only for subtype `SMD`. -/
def exSubtypeDef : PartAttributeDefinition :=
  ⟨1, "Subtype", some "enum('SMD','THT')", none, none, none, some "yes"⟩

/-- Companion definition for the C6 example. -/
def exVoltageDef : PartAttributeDefinition :=
  ⟨2, "Voltage", some "int", none, none, none, some "required if subtype in 'SMD'"⟩

instance : IsTotal BomRow bomLeProp :=
  ⟨fun a b => le_total (bomSortKey a) (bomSortKey b)⟩

instance : IsTrans BomRow bomLeProp :=
  ⟨fun _ _ _ hab hbc => le_trans hab hbc⟩

/-- The normalized search text: trimmed, whitespace-collapsed, lower-cased
input, exactly as `searchParts` computes it before interpolation. -/
def normalizedSearchText (s : String) : String := jsToLower (collapseWs (jsTrim s))

/-- The standard (prefix) pattern the amended claim describes: the normalized
text followed by a single `%`, with every input character kept verbatim. -/
def claimStandardPattern (s : String) : String := normalizedSearchText s ++ "%"

/-- The contains pattern: the normalized text wrapped in `%`. -/
def claimContainsPattern (s : String) : String := "%" ++ normalizedSearchText s ++ "%"

/-- The collapsed pattern: the normalized text stripped to lower-case
alphanumerics (falling back to the normalized text when nothing is left),
wrapped in `%`. -/
def claimCollapsedPattern (s : String) : String :=
  let collapsed : String := ⟨(normalizedSearchText s).toList.filter isSearchAlnum⟩
  "%" ++ (if collapsed = "" then normalizedSearchText s else collapsed) ++ "%"

/-! ## Helper lemmas -/

lemma jsToLower_eq_empty_iff (s : String) : jsToLower s = "" ↔ s = "" := by
  obtain ⟨data⟩ := s
  constructor
  · intro h
    have : data.map Char.toLower = [] := congrArg String.data h
    simpa using congrArg String.mk (List.map_eq_nil_iff.mp this)
  · intro h
    rw [h]
    rfl

@[simp] lemma Except.isOk_ok {ε α : Type} (a : α) :
    (Except.ok a : Except ε α).isOk = true := rfl

@[simp] lemma Except.isOk_error {ε α : Type} (e : ε) :
    (Except.error e : Except ε α).isOk = false := rfl

/-! ## Claim theorems -/

/-- C1: `evaluateRequirement` matches the specification's case analysis —
`{false, true}` for an empty/absent rule, `{true, true}` for `yes`,
`{false, true}` for `no`, and otherwise both flags equal the case-insensitive
membership of a non-empty subtype value among the rule's single-quoted
literals, with `{false, true}` in every remaining case; in particular the
rule `required if subtype in 'SMD','SMT'` is required+visible for subtype
`SMT`, hidden+optional for `THT`, and rule `yes` is required+visible for
every subtype value including none. -/
theorem C1_evaluateRequirement_matches_spec :
    (∀ rule subtypeValue,
      evaluateRequirement rule subtypeValue = requirementClaimSpec rule subtypeValue)
    ∧ evaluateRequirement (some "required if subtype in 'SMD','SMT'") "SMT" =
        ⟨true, true⟩
    ∧ evaluateRequirement (some "required if subtype in 'SMD','SMT'") "THT" =
        ⟨false, false⟩
    ∧ (∀ subtypeValue, evaluateRequirement (some "yes") subtypeValue = ⟨true, true⟩) := by
  refine ⟨fun rule subtypeValue => ?_, by rfl, by rfl, fun subtypeValue => by rfl⟩
  unfold evaluateRequirement requirementClaimSpec
  cases rule with
  | none => rfl
  | some s =>
    simp only [Option.getD]
    by_cases h1 : jsToLower (jsTrim s) = ""
    · simp [h1]
    by_cases h2 : jsToLower (jsTrim s) = "yes"
    · simp [h1, h2]
    by_cases h3 : jsToLower (jsTrim s) = "no"
    · simp [h1, h2, h3]
    simp only [h1, h2, h3, if_false, if_neg, List.any_map]
    refine if_congr (and_congr ?_ ?_) rfl rfl
    · simp
    · exact not_congr (jsToLower_eq_empty_iff _)

/-- C2: the per-part available quantity delivered by the search path and the
snapshot's global available quantity are `max(on-hand − allocated, 0)`, hence
never negative — zero whenever allocation meets or exceeds on-hand — and
absent lot or tag rows contribute zero. -/
theorem C2_available_quantity_clamped (lots : List LotRow) (tags : List TagRow) (p : String) :
    partSearchAvailable lots tags p = max (onHandFor lots p - allocatedFor tags p) 0
    ∧ 0 ≤ partSearchAvailable lots tags p
    ∧ 0 ≤ snapshotQuantityAvailable lots tags
    ∧ (onHandFor lots p ≤ allocatedFor tags p → partSearchAvailable lots tags p = 0)
    ∧ onHandFor [] p = 0 ∧ allocatedFor [] p = 0 := by
  refine ⟨?_, ?_, ?_, ?_, rfl, rfl⟩
  · simp [partSearchAvailable, mapPartResultAvailable, sqlAvailableQuantity, max_comm]
  · simp [partSearchAvailable, mapPartResultAvailable]
  · simp [snapshotQuantityAvailable]
  · intro h
    simp only [partSearchAvailable, mapPartResultAvailable, sqlAvailableQuantity]
    have h0 : onHandFor lots p - allocatedFor tags p ≤ 0 := by linarith
    rw [max_eq_right h0, max_self]

/-- Witness for C2: a part with 3 on hand and 10 allocated has available
quantity 0, not −7. -/
theorem C2_available_quantity_clamped_witness :
    partSearchAvailable [⟨"p", 3⟩] [⟨"p", some 10⟩] "p" = 0 :=
  (C2_available_quantity_clamped [⟨"p", 3⟩] [⟨"p", some 10⟩] "p").2.2.2.1
    (by simp only [onHandFor, allocatedFor, List.filter, List.filterMap, List.map,
          List.sum_cons, List.sum_nil, add_zero]; decide)

/-- C3: `validateAttributeValue` accepts exactly under the specification's
conditions — an empty (or whitespace-only) value always passes and
normalizes to the empty string; a plain-text datatype accepts any string
(trimmed); and enum/int/double reject precisely on enum mismatch against a
non-empty options list, parse failure, or a parsed number outside the
declared bounds. -/
theorem C3_validateAttributeValue_characterization
    (d : PartAttributeDefinition) (v : String) :
    ((validateAttributeValue d v).isOk = validateClaimPasses d v)
    ∧ (jsTrim v = "" → validateAttributeValue d v = .ok "")
    ∧ (parseAttributeConstraint d.dataType = .text →
        validateAttributeValue d v = .ok (jsTrim v)) := by
  unfold validateAttributeValue validateClaimPasses
  by_cases hv : jsTrim v = ""
  · simp [hv]
  refine ⟨?_, fun h => absurd h hv, ?_⟩
  · cases hc : parseAttributeConstraint d.dataType with
    | enum options =>
      simp only [hv, if_neg, hc]
      by_cases he : options = []
      · simp [he]
      by_cases ha : options.any (fun o => jsToLower o = jsToLower (jsTrim v))
      · simp [he, ha, List.isEmpty_iff]
      · simp [he, ha, List.isEmpty_iff]
    | int =>
      simp only [hv, if_neg, hc]
      cases hp : jsParseInt (jsTrim v) with
      | none => simp
      | some n =>
        rcases hmn : d.minValue with _ | mn <;> rcases hmx : d.maxValue with _ | mx <;>
          simp only [checkRange, minViolation, maxViolation] <;> split_ifs <;>
          simp_all
    | double =>
      simp only [hv, if_neg, hc]
      cases hp : jsParseFloat (jsTrim v) with
      | none => simp
      | some f =>
        rcases hmn : d.minValue with _ | mn <;> rcases hmx : d.maxValue with _ | mx <;>
          simp only [jfCheckRange] <;> split_ifs <;> simp_all
    | text => simp [hv, hc]
  · intro h
    simp [hv, h]

/-- Witness for C3: a whitespace-only value passes validation for a plain
text attribute and normalizes to the empty string. -/
theorem C3_validateAttributeValue_characterization_witness :
    validateAttributeValue ⟨7, "Notes", none, none, none, none, none⟩ "   " = .ok "" :=
  (C3_validateAttributeValue_characterization
    ⟨7, "Notes", none, none, none, none, none⟩ "   ").2.1 (by rfl)

/-- C10: whenever an int (resp. double) attribute value passes validation,
the normalized value is the canonical decimal rendering of the parsed number,
not the submitted text — surrounding whitespace, leading zeros, trailing
fractional zeros and trailing non-numeric characters accepted by the parser
do not survive, as the concrete instances `" 007 " ↦ "7"`, `"5.9" ↦ "5"`,
`"1.50" ↦ "1.5"` and `"2.5xyz" ↦ "2.5"` show. -/
theorem C10_numeric_normalization :
    (∀ (d : PartAttributeDefinition) (v : String) (n : ℤ),
        parseAttributeConstraint d.dataType = .int →
        jsParseInt (jsTrim v) = some n →
        (validateAttributeValue d v).isOk = true →
        validateAttributeValue d v = .ok (toString n))
    ∧ (∀ (d : PartAttributeDefinition) (v : String) (f : JFloat),
        parseAttributeConstraint d.dataType = .double →
        jsParseFloat (jsTrim v) = some f →
        (validateAttributeValue d v).isOk = true →
        validateAttributeValue d v = .ok (renderJFloat f))
    ∧ validateAttributeValue ⟨1, "n", some "int", none, none, none, none⟩ " 007 " = .ok "7"
    ∧ validateAttributeValue ⟨1, "n", some "int", none, none, none, none⟩ "5.9" = .ok "5"
    ∧ validateAttributeValue ⟨2, "x", some "double", none, none, none, none⟩ "1.50" =
        .ok "1.5"
    ∧ validateAttributeValue ⟨2, "x", some "double", none, none, none, none⟩ "2.5xyz" =
        .ok "2.5" := by
  refine ⟨?_, ?_, by rfl, by rfl, by rfl, by rfl⟩
  · intro d v n hc hp hok
    have hv : jsTrim v ≠ "" := by
      intro h
      rw [h, show jsParseInt "" = none from rfl] at hp
      cases hp
    simp only [validateAttributeValue, if_neg hv, hc, hp] at hok ⊢
    cases hr : checkRange (if d.code ≠ "" then d.code
        else "Attribute " ++ toString d.attributeId) (n : ℚ) d.minValue d.maxValue with
    | some e => rw [hr] at hok; simp at hok
    | none => rfl
  · intro d v f hc hp hok
    have hv : jsTrim v ≠ "" := by
      intro h
      rw [h, show jsParseFloat "" = none from rfl] at hp
      cases hp
    simp only [validateAttributeValue, if_neg hv, hc, hp] at hok ⊢
    cases hr : jfCheckRange (if d.code ≠ "" then d.code
        else "Attribute " ++ toString d.attributeId) f d.minValue d.maxValue with
    | some e => rw [hr] at hok; simp at hok
    | none => rfl

/-- Witness for C10: the int value `" 007 "` parses to 7, passes validation,
and is normalized to `"7"`. -/
theorem C10_numeric_normalization_witness :
    validateAttributeValue ⟨1, "n", some "int", none, none, none, none⟩ " 007 " =
      .ok (toString (7 : ℤ)) :=
  C10_numeric_normalization.1 ⟨1, "n", some "int", none, none, none, none⟩ " 007 " 7
    (by rfl) (by rfl) (by rfl)

/-- C6: `assertRequiredAttributes` locates the subtype value through
`findSubtypeValue` (the definition whose normalized code is `subtype`),
succeeds exactly when every definition required against that value has a
non-empty submitted value, and otherwise fails with the single error listing
all missing attribute codes; on the example part type, submitting only
subtype `SMD` fails naming `Voltage`, and supplying a voltage succeeds. -/
theorem C6_assertRequired_characterization
    (attrs : List (ℕ × String)) (definitions : List PartAttributeDefinition) :
    ((assertRequiredAttributes attrs definitions).isOk = true ↔
      ∀ d ∈ definitions,
        (evaluateRequirement d.requiredRule (findSubtypeValue attrs definitions)).required =
          true →
        ∃ a, attrs.find? (fun x => x.1 == d.attributeId) = some a ∧ jsTrim a.2 ≠ "")
    ∧ (missingRequiredCodes attrs definitions ≠ [] →
        assertRequiredAttributes attrs definitions =
          .error ("Missing required attributes: " ++
            joinComma (missingRequiredCodes attrs definitions)))
    ∧ assertRequiredAttributes [(1, "SMD")] [exSubtypeDef, exVoltageDef] =
        .error "Missing required attributes: Voltage"
    ∧ assertRequiredAttributes [(1, "SMD"), (2, "42")] [exSubtypeDef, exVoltageDef] =
        .ok () := by
  refine ⟨?_, ?_, by rfl, by rfl⟩
  · unfold assertRequiredAttributes
    by_cases hm : missingRequiredCodes attrs definitions = []
    · rw [if_pos hm]
      simp only [Except.isOk_ok, true_iff]
      intro d hd hreq
      have hnp : ¬ ((evaluateRequirement d.requiredRule
          (findSubtypeValue attrs definitions)).required &&
            (match attrs.find? (fun a => a.1 == d.attributeId) with
             | none => true
             | some a => jsTrim a.2 == "")) = true := by
        intro hpred
        have : d ∈ definitions.filter (fun d =>
            (evaluateRequirement d.requiredRule (findSubtypeValue attrs definitions)).required &&
              (match attrs.find? (fun a => a.1 == d.attributeId) with
               | none => true
               | some a => jsTrim a.2 == "")) := List.mem_filter.mpr ⟨hd, hpred⟩
        have hne : definitions.filter _ ≠ [] := List.ne_nil_of_mem this
        apply hne
        have := congrArg (fun l => l) hm
        simpa [missingRequiredCodes, List.map_eq_nil_iff] using hm
      rw [hreq] at hnp
      simp only [Bool.true_and] at hnp
      cases hf : attrs.find? (fun x => x.1 == d.attributeId) with
      | none => rw [hf] at hnp; simp at hnp
      | some a =>
        rw [hf] at hnp
        refine ⟨a, rfl, ?_⟩
        simpa using hnp
    · rw [if_neg hm]
      simp only [Except.isOk_error, Bool.false_eq_true, false_iff]
      intro hall
      apply hm
      simp only [missingRequiredCodes, List.map_eq_nil_iff, List.filter_eq_nil_iff]
      intro d hd
      intro hpred
      have hreq : (evaluateRequirement d.requiredRule
          (findSubtypeValue attrs definitions)).required = true := by
        cases h : (evaluateRequirement d.requiredRule
            (findSubtypeValue attrs definitions)).required
        · rw [h] at hpred; simp at hpred
        · rfl
      obtain ⟨a, ha, hne⟩ := hall d hd hreq
      rw [hreq, ha] at hpred
      simp only [Bool.true_and, beq_iff_eq] at hpred
      exact hne hpred
  · intro hm
    simp [assertRequiredAttributes, hm]

/-- Witness for C6: on the example part type with only subtype `SMD`
submitted, the computed missing list is `["Voltage"]` and the call fails with
the message naming it. -/
theorem C6_assertRequired_characterization_witness :
    assertRequiredAttributes [(1, "SMD")] [exSubtypeDef, exVoltageDef] =
      .error ("Missing required attributes: " ++
        joinComma (missingRequiredCodes [(1, "SMD")] [exSubtypeDef, exVoltageDef])) :=
  (C6_assertRequired_characterization [(1, "SMD")] [exSubtypeDef, exVoltageDef]).2.1
    (by decide)

/-! Fold lemmas for the assemblies-available computation. -/

lemma assembliesStep_bad (acc : Option ℚ) (i : BomAvailItem)
    (h : i.quantityPer.getD 0 ≤ 0) : assembliesStep acc i = some 0 := by
  simp [assembliesStep, h]

lemma assemblyRatio_nonneg (i : BomAvailItem) (h : ¬ i.quantityPer.getD 0 ≤ 0) :
    0 ≤ assemblyRatio i := by
  have hq : 0 < i.quantityPer.getD 0 := lt_of_not_le h
  exact div_nonneg (le_max_right _ _) hq.le

lemma foldl_assembliesStep_zero (l : List BomAvailItem) :
    l.foldl assembliesStep (some 0) = some 0 := by
  induction l with
  | nil => rfl
  | cons i t ih =>
    rw [List.foldl_cons]
    by_cases h : i.quantityPer.getD 0 ≤ 0
    · rw [assembliesStep_bad _ _ h, ih]
    · have hr : 0 ≤ assemblyRatio i := assemblyRatio_nonneg i h
      have hs : assembliesStep (some 0) i = some 0 := by
        simp only [assembliesStep, if_neg h]
        exact congrArg some (min_eq_left hr)
      rw [hs, ih]

lemma foldl_assembliesStep_of_bad (l : List BomAvailItem) (acc : Option ℚ)
    (h : ∃ i ∈ l, i.quantityPer.getD 0 ≤ 0) :
    l.foldl assembliesStep acc = some 0 := by
  induction l generalizing acc with
  | nil => obtain ⟨i, hi, _⟩ := h; cases hi
  | cons i t ih =>
    rw [List.foldl_cons]
    by_cases hb : i.quantityPer.getD 0 ≤ 0
    · rw [assembliesStep_bad _ _ hb]
      exact foldl_assembliesStep_zero t
    · obtain ⟨j, hj, hjb⟩ := h
      cases hj with
      | head => exact absurd hjb hb
      | tail _ hjt => exact ih _ ⟨j, hjt, hjb⟩

lemma foldl_assembliesStep_of_good (l : List BomAvailItem) (m : ℚ)
    (h : ∀ i ∈ l, ¬ i.quantityPer.getD 0 ≤ 0) :
    l.foldl assembliesStep (some m) = some ((l.map assemblyRatio).foldl min m) := by
  induction l generalizing m with
  | nil => rfl
  | cons i t ih =>
    rw [List.foldl_cons]
    have hb := h i (List.mem_cons_self i t)
    have : assembliesStep (some m) i = some (min m (assemblyRatio i)) := by
      simp only [assembliesStep, if_neg hb]
      rfl
    rw [this, ih _ (fun j hj => h j (List.mem_cons_of_mem i hj)), List.map_cons,
      List.foldl_cons]

lemma foldl_min_nonneg (l : List BomAvailItem) (m : ℚ) (hm : 0 ≤ m)
    (h : ∀ i ∈ l, ¬ i.quantityPer.getD 0 ≤ 0) :
    0 ≤ (l.map assemblyRatio).foldl min m := by
  induction l generalizing m with
  | nil => exact hm
  | cons i t ih =>
    rw [List.map_cons, List.foldl_cons]
    exact ih _ (le_min hm (assemblyRatio_nonneg i (h i (List.mem_cons_self i t))))
      (fun j hj => h j (List.mem_cons_of_mem i hj))

/-- C8: `computeAssembliesAvailable` returns zero on an empty line list or on
any line whose quantity-per (null coerced to zero) is non-positive, and
otherwise the floor of the minimum over all lines of the zero-clamped
available quantity divided by the quantity-per; in particular lines
`[{quantityPer: 2, availableQuantity: 10}, {quantityPer: 0, availableQuantity: 5}]`
yield 0. -/
theorem C8_assemblies_available (items : List BomAvailItem) :
    computeAssembliesAvailable items = assembliesClaimSpec items
    ∧ computeAssembliesAvailable [⟨some 2, some 10⟩, ⟨some 0, some 5⟩] = 0 := by
  constructor
  · cases items with
    | nil => rfl
    | cons first rest =>
      unfold computeAssembliesAvailable assembliesClaimSpec
      rw [if_neg (by simp)]
      by_cases hb : ∃ i ∈ first :: rest, i.quantityPer.getD 0 ≤ 0
      · rw [foldl_assembliesStep_of_bad _ _ hb]
        have hany : ((first :: rest).any fun i => decide (i.quantityPer.getD 0 ≤ 0)) = true := by
          simp only [List.any_eq_true, decide_eq_true_eq]
          exact hb
        simp [hany]
      · push_neg at hb
        have hb1 : ¬ first.quantityPer.getD 0 ≤ 0 :=
          not_le.mpr (hb first (List.mem_cons_self first rest))
        have hstep : assembliesStep none first = some (assemblyRatio first) := by
          simp only [assembliesStep, if_neg hb1]
          rfl
        rw [List.foldl_cons, hstep,
          foldl_assembliesStep_of_good rest (assemblyRatio first)
            (fun j hj => not_le.mpr (hb j (List.mem_cons_of_mem first hj)))]
        have hany : ((first :: rest).any fun i => decide (i.quantityPer.getD 0 ≤ 0)) = false := by
          simp only [List.any_eq_false, decide_eq_true_eq]
          exact fun i hi => not_le.mpr (hb i hi)
        have hnn : (0:ℚ) ≤ (rest.map assemblyRatio).foldl min (assemblyRatio first) :=
          foldl_min_nonneg rest _ (assemblyRatio_nonneg first hb1)
            (fun j hj => not_le.mpr (hb j (List.mem_cons_of_mem first hj)))
        have hfl : (0:ℤ) ≤ ⌊(rest.map assemblyRatio).foldl min (assemblyRatio first)⌋ :=
          Int.floor_nonneg.mpr hnn
        simp [hany, ge_iff_le, hfl]
  · have h2 : (⟨some 0, some 5⟩ : BomAvailItem).quantityPer.getD 0 ≤ 0 := le_refl 0
    unfold computeAssembliesAvailable
    rw [foldl_assembliesStep_of_bad _ none ⟨⟨some 0, some 5⟩, by simp, h2⟩]
    simp

/-- Counterexample to C7 as stated: the sentinel is 999999, so the
digits-only sequence `"1000000"` (numeric value 1 000 000) sorts AFTER the
non-numeric sequence `"abc"` within the same assembly — refuting "non-numeric
sequences sort after all numeric ones". -/
theorem C7_bom_ordering_counterexample :
    orderBomRows [⟨"A", "1000000", "c1"⟩, ⟨"A", "abc", "c2"⟩] =
      [⟨"A", "abc", "c2"⟩, ⟨"A", "1000000", "c1"⟩]
    ∧ ("1000000".toList.all Char.isDigit && !("1000000" == "")) = true
    ∧ ("abc".toList.all Char.isDigit) = false := by
  refine ⟨by decide, by decide, by decide⟩

/-- C7 (amended): the BOM resolver returns the rows sorted by assembly
ascending, then the sequence key, then component ascending — where a
digits-only sequence's key is its numeric value and any other sequence gets
the sentinel key 999999 (so non-numeric sequences sort after exactly those
numeric sequences whose value is below the sentinel); the specification's
example `["2", "10", "abc", "1"]` comes back as `1, 2, 10, abc`. -/
theorem C7_bom_ordering_amended (rows : List BomRow) :
    (orderBomRows rows).Sorted bomLeProp
    ∧ (orderBomRows rows).Perm rows
    ∧ (∀ a b : BomRow, bomLeProp a b ↔
        toLex (a.assembly.toList, toLex (seqSortKey a.itemSequence, a.component.toList)) ≤
        toLex (b.assembly.toList, toLex (seqSortKey b.itemSequence, b.component.toList)))
    ∧ (∀ s : String, s ≠ "" → s.toList.all Char.isDigit = true →
        seqSortKey s = digitsVal s.toList)
    ∧ (∀ s : String, s.toList.all Char.isDigit = false → seqSortKey s = 999999)
    ∧ (orderBomRows
        [⟨"A", "2", "c2"⟩, ⟨"A", "10", "c10"⟩, ⟨"A", "abc", "cabc"⟩,
         ⟨"A", "1", "c1"⟩]).map (fun r => r.itemSequence) = ["1", "2", "10", "abc"] := by
  refine ⟨List.sorted_insertionSort bomLeProp rows, List.perm_insertionSort bomLeProp rows,
    fun a b => Iff.rfl, ?_, ?_, by decide⟩
  · intro s hne hdig
    exact if_pos ⟨hne, hdig⟩
  · intro s hdig
    refine if_neg ?_
    intro h
    rw [h.2] at hdig
    cases hdig

/-- Witness for C7 (amended): the digits-only sequence `"10"` keys to its
numeric value 10. -/
theorem C7_bom_ordering_amended_witness :
    seqSortKey "10" = digitsVal "10".toList :=
  (C7_bom_ordering_amended []).2.2.2.1 "10" (by decide) (by decide)

/-- Counterexample to C9 as stated: for the input `"A_B"` — which contains no
`*` — the compiled standard pattern is `"a_b%"`: the user's `_` survives as a
bare LIKE metacharacter with no escape character anywhere in the pattern, and
for `"a*b"` the `*` is interpolated literally rather than honored as a
wildcard (no segment splitting/joining with `%`). -/
theorem C9_pattern_escaping_counterexample :
    buildPartNumberPatterns "A_B" = some ("a_b%", "%a_b%", "%ab%")
    ∧ charCount "a_b%" '_' = 1
    ∧ charCount "a_b%" '\\' = 0
    ∧ buildPartNumberPatterns "a*b" = some ("a*b%", "%a*b%", "%ab%")
    ∧ charCount "a*b%" '*' = 1 := by
  exact ⟨by rfl, by rfl, by rfl, by rfl, by rfl⟩

/-- C9 (amended): `searchParts` performs no escaping and no `*` handling —
for every input with non-empty trim, the three compiled patterns are exactly
the normalized input interpolated verbatim into `p%`, `%p%` and a collapsed
`%c%`; consequently the standard pattern is the normalized text plus one
trailing `%` (so every user `%`, `_` or `*` is passed through unchanged, and
the pattern's `%`-count is the input's plus the single appended wildcard). -/
theorem C9_pattern_compilation_amended (s : String) (h : jsTrim s ≠ "") :
    buildPartNumberPatterns s =
      some (claimStandardPattern s, claimContainsPattern s, claimCollapsedPattern s)
    ∧ (claimStandardPattern s).toList = (normalizedSearchText s).toList ++ ['%']
    ∧ charCount (claimStandardPattern s) '%' = charCount (normalizedSearchText s) '%' + 1
    ∧ charCount (claimStandardPattern s) '*' = charCount (normalizedSearchText s) '*'
    ∧ charCount (claimStandardPattern s) '_' = charCount (normalizedSearchText s) '_' := by
  have hdata : ∀ a : String, (a ++ "%").toList = a.toList ++ ['%'] :=
    fun a => String.data_append a "%"
  have hcount : ∀ (c : Char), c ≠ '%' →
      charCount (claimStandardPattern s) c = charCount (normalizedSearchText s) c := by
    intro c hc
    unfold claimStandardPattern charCount
    rw [hdata, List.filter_append]
    have hp : ('%' == c) = false := by
      simp only [beq_eq_false_iff_ne, ne_eq]
      exact fun hx => hc hx.symm
    have hfil : ['%'].filter (fun x => x == c) = [] := by
      simp [List.filter, hp]
    rw [hfil, List.length_append, List.length_nil, Nat.add_zero]
  refine ⟨?_, hdata _, ?_, hcount '*' (by decide), hcount '_' (by decide)⟩
  · unfold buildPartNumberPatterns claimStandardPattern claimContainsPattern
      claimCollapsedPattern normalizedSearchText
    rw [if_neg h]
  · unfold claimStandardPattern charCount
    rw [hdata, List.filter_append]
    have : ['%'].filter (fun x => x == '%') = ['%'] := by decide
    rw [this, List.length_append]
    rfl

/-- Witness for C9 (amended): the input `"abc"` compiles to the three
patterns built from its normalized text. -/
theorem C9_pattern_compilation_amended_witness :
    buildPartNumberPatterns "abc" =
      some (claimStandardPattern "abc", claimContainsPattern "abc",
        claimCollapsedPattern "abc") :=
  (C9_pattern_compilation_amended "abc" (by decide)).1

/-! Helper lemmas for the upsert theorems. -/

lemma dropWhile_head?_false {p : Char → Bool} :
    ∀ (l : List Char) (a : Char), (l.dropWhile p).head? = some a → p a = false := by
  intro l a h
  induction l with
  | nil => cases h
  | cons x t ih =>
    rw [List.dropWhile_cons] at h
    by_cases hx : p x = true
    · rw [if_pos hx] at h
      exact ih h
    · rw [if_neg hx] at h
      have : x = a := by cases h; rfl
      rw [← this]
      exact Bool.not_eq_true _ ▸ hx

lemma dropWhile_of_head?_false {p : Char → Bool} (l : List Char)
    (h : ∀ a, l.head? = some a → p a = false) : l.dropWhile p = l := by
  cases l with
  | nil => rfl
  | cons x t =>
    rw [List.dropWhile_cons, if_neg]
    rw [h x rfl]
    simp

/-- `trim` is idempotent, so the post-commit read of `upsertPart` looks up
exactly the part number the transaction wrote. -/
lemma jsTrim_idem (s : String) : jsTrim (jsTrim s) = jsTrim s := by
  unfold jsTrim
  congr 1
  show ((((((s.toList.dropWhile jsIsWs).reverse.dropWhile jsIsWs).reverse :
      List Char).dropWhile jsIsWs).reverse.dropWhile jsIsWs).reverse) =
    ((s.toList.dropWhile jsIsWs).reverse.dropWhile jsIsWs).reverse
  set A := s.toList.dropWhile jsIsWs with hA
  set B := A.reverse.dropWhile jsIsWs with hB
  have hAhead : ∀ a, A.head? = some a → jsIsWs a = false := fun a ha =>
    dropWhile_head?_false s.toList a (hA ▸ ha)
  have hBhead : ∀ a, B.head? = some a → jsIsWs a = false := fun a ha =>
    dropWhile_head?_false A.reverse a (hB ▸ ha)
  have hT : B.reverse.dropWhile jsIsWs = B.reverse := by
    apply dropWhile_of_head?_false
    intro a ha
    rcases List.eq_nil_or_concat B.reverse with hnil | ⟨l, x, hcat⟩
    · rw [hnil] at ha
      cases ha
    · -- the head of `B.reverse` is the last of `B`, which is the last of
      -- `A.reverse` (dropWhile keeps a suffix), i.e. the head of `A`
      have hBne : B ≠ [] := by
        intro h0
        rw [h0] at ha
        cases ha
      have h1 : B.reverse.head? = A.head? := by
        rw [List.head?_reverse]
        have h2 : B.getLast? = A.reverse.getLast? := by
          conv_rhs => rw [← List.takeWhile_append_dropWhile jsIsWs A.reverse]
          rw [List.getLast?_append, ← hB]
          rcases hlast : B.getLast? with _ | y
          · exact absurd (List.getLast?_eq_none_iff.mp hlast) hBne
          · rfl
        rw [h2, List.getLast?_reverse]
      rw [h1] at ha
      exact hAhead a ha
  rw [hT, List.reverse_reverse]
  have hBdrop : B.dropWhile jsIsWs = B := dropWhile_of_head?_false B hBhead
  rw [hBdrop]

lemma find?_map_update (l : List PartRow) (pn : String) (p upd : PartRow)
    (hf : l.find? (fun r => r.partNumber == pn) = some p) (hupd : upd.partNumber = pn) :
    (l.map (fun r => if r.partNumber == pn then upd else r)).find?
      (fun r => r.partNumber == pn) = some upd := by
  induction l with
  | nil => cases hf
  | cons a t ih =>
    rw [List.map_cons]
    by_cases ha : (a.partNumber == pn) = true
    · rw [if_pos ha]
      exact List.find?_cons_of_pos _ (by rw [hupd]; exact beq_self_eq_true pn)
    · rw [if_neg ha]
      have ha' : (a.partNumber == pn) = false := Bool.eq_false_iff.mpr ha
      simp only [List.find?_cons, ha'] at hf ⊢
      exact ih hf

lemma find?_append_new (l : List PartRow) (pn : String) (created : PartRow)
    (hf : l.find? (fun r => r.partNumber == pn) = none)
    (hc : created.partNumber = pn) :
    (l ++ [created]).find? (fun r => r.partNumber == pn) = some created := by
  rw [List.find?_append, hf, Option.none_or, List.find?_cons, show
    (created.partNumber == pn) = true by rw [hc]; exact beq_self_eq_true pn]

/-- `x || null` stored then read back through `?? ''` round-trips the value. -/
lemma getD_orNull (v : String) : (if v = "" then none else some v).getD "" = v := by
  by_cases h : v = ""
  · rw [if_pos h, h]
    rfl
  · rw [if_neg h]
    rfl

/-- Reading a part that `find?` locates yields a detail whose attribute
id/value pairs are the part's stored `part_data` rows. -/
lemma getPartDetail_of_find (pm : List PartRow) (pd : List PartDataRow)
    (attrTab : List AttributeRow) (am : List AttrTypeMapRow) (nk : ℕ)
    (pn : String) (part : PartRow)
    (htrim : jsTrim pn = pn) (hne : pn ≠ "")
    (hf : pm.find? (fun r => r.partNumber == pn) = some part) :
    ∃ d, getPartDetail ⟨pm, pd, attrTab, am, nk⟩ pn = some d ∧
      d.attributes.map (fun a => (a.attributeId, a.value)) =
        (pd.filter (fun r => r.pkey == part.pkey)).map
          (fun r => (r.attributeId, r.value.getD "")) := by
  unfold getPartDetail
  dsimp only
  rw [htrim, if_neg hne, hf]
  refine ⟨_, rfl, ?_⟩
  simp only [List.map_map]
  rfl

/-- C5: every validation failure of `upsertPart` (empty part number,
unresolvable part type, per-value datatype failure, missing required
attributes, nonexistent part with creation disallowed) is raised before any
write: an erroring call returns the store unchanged; and an upsert of a
brand-new part number with `allowCreate = false` that passes all earlier
validation fails with the `does not exist` error, creating no part row and
no attribute rows. -/
theorem C5_upsert_failfast (payload : PartUpsertPayload) (allowCreate : Bool) (db : Db) :
    ((upsertPart payload allowCreate db).1.isOk = false →
      (upsertPart payload allowCreate db).2 = db)
    ∧ (∀ (t : ℕ) (norm : List (ℕ × String)),
        jsTrim payload.partNumber ≠ "" →
        db.partmaster.find? (fun r => r.partNumber == jsTrim payload.partNumber) = none →
        payload.partTypeId = some t →
        t ≠ 0 →
        normalizeAttributes payload.attributes (resolveAttributeDefinitions db t) =
          .ok norm →
        (if (resolveAttributeDefinitions db t).isEmpty then Except.ok ()
         else assertRequiredAttributes norm (resolveAttributeDefinitions db t)) =
          .ok () →
        upsertPart payload false db = (.error "Part does not exist.", db)) := by
  constructor
  · intro hok
    rcases hres : upsertPart payload allowCreate db with ⟨r1, r2⟩
    rw [hres] at hok
    simp only [upsertPart] at hres
    split at hres
    · cases hres
      rfl
    next h1 =>
      rcases hex : db.partmaster.find?
          (fun r => r.partNumber == jsTrim payload.partNumber) with _ | p
      all_goals rw [hex] at hres
      all_goals dsimp only at hres
      all_goals split at hres
      · cases hres; rfl
      next t het =>
        split at hres
        · cases hres; rfl
        next h4 =>
          split at hres
          · cases hres; rfl
          next norm hnorm =>
            split at hres
            · cases hres; rfl
            next hreq =>
              split at hres
              · cases hres; rfl
              next h7 =>
                split at hres
                · cases hres
                  simp at hok
                next hdetail =>
                  exfalso
                  have hfind := find?_append_new db.partmaster (jsTrim payload.partNumber)
                    { pkey := db.nextPkey, partNumber := jsTrim payload.partNumber,
                      descText := orNullField payload.description,
                      revision := orNullField payload.revision,
                      stockUom := orNullField payload.stockUom,
                      isc := orNullField payload.status,
                      partTypeId := some t } hex rfl
                  obtain ⟨d, hd, -⟩ := getPartDetail_of_find
                    (db.partmaster ++
                      [{ pkey := db.nextPkey, partNumber := jsTrim payload.partNumber,
                         descText := orNullField payload.description,
                         revision := orNullField payload.revision,
                         stockUom := orNullField payload.stockUom,
                         isc := orNullField payload.status,
                         partTypeId := some t }])
                    (List.filter (fun r => r.pkey != db.nextPkey) db.partData ++
                      List.map (fun a =>
                        { pkey := db.nextPkey, attributeId := a.1,
                          value := if a.2 = "" then none else some a.2 }) norm)
                    db.attributeTable db.attrTypeMap (db.nextPkey + 1)
                    (jsTrim payload.partNumber) _ (jsTrim_idem _) h1 hfind
                  rw [hdetail] at hd
                  cases hd
      · cases hres; rfl
      next t het =>
        split at hres
        · cases hres; rfl
        next h4 =>
          split at hres
          · cases hres; rfl
          next norm hnorm =>
            split at hres
            · cases hres; rfl
            next hreq =>
              split at hres
              · cases hres; rfl
              next h7 =>
                split at hres
                · cases hres
                  simp at hok
                next hdetail =>
                  exfalso
                  have hp : p.partNumber = jsTrim payload.partNumber := by
                    simpa using List.find?_some hex
                  have hfind := find?_map_update db.partmaster (jsTrim payload.partNumber) p
                    { pkey := p.pkey, partNumber := jsTrim payload.partNumber,
                      descText := orNullField payload.description,
                      revision := orNullField payload.revision,
                      stockUom := orNullField payload.stockUom,
                      isc := orNullField payload.status,
                      partTypeId := some t } hex rfl
                  rw [hp] at hdetail
                  obtain ⟨d, hd, -⟩ := getPartDetail_of_find
                    (List.map (fun r =>
                      if (r.partNumber == jsTrim payload.partNumber) = true then
                        { pkey := p.pkey, partNumber := jsTrim payload.partNumber,
                          descText := orNullField payload.description,
                          revision := orNullField payload.revision,
                          stockUom := orNullField payload.stockUom,
                          isc := orNullField payload.status,
                          partTypeId := some t }
                      else r) db.partmaster)
                    (List.filter (fun r => r.pkey != p.pkey) db.partData ++
                      List.map (fun a =>
                        { pkey := p.pkey, attributeId := a.1,
                          value := if a.2 = "" then none else some a.2 }) norm)
                    db.attributeTable db.attrTypeMap db.nextPkey
                    (jsTrim payload.partNumber) _ (jsTrim_idem _) h1 hfind
                  rw [hdetail] at hd
                  cases hd
  · intro t norm h1 h2 h3 h4 h5 h6
    simp only [upsertPart, if_neg h1, h2, h3, h5, h6, if_neg h4, Option.isNone_none,
      Bool.not_false, Bool.and_self, if_true]

/-- Witness for C5: upserting the brand-new part number `NEW` with
`allowCreate = false` on an empty store fails with the `does not exist`
error and leaves the store unchanged (no part row, no attribute rows). -/
theorem C5_upsert_failfast_witness :
    upsertPart ⟨"NEW", none, none, none, none, some 3, []⟩ false ⟨[], [], [], [], 0⟩ =
      (.error "Part does not exist.", ⟨[], [], [], [], 0⟩) :=
  (C5_upsert_failfast ⟨"NEW", none, none, none, none, some 3, []⟩ false
    ⟨[], [], [], [], 0⟩).2 3 [] (by decide) rfl rfl (by decide) rfl rfl

/-- C4: upserting an existing part with an already-normalized valid attribute
set (every id defined for the effective type, every value fixed by
validation), then immediately reading the part back, returns exactly the
submitted attribute id/value pairs — the transaction replaces the stored
attribute rows wholesale, so no attribute from a prior version survives. -/
theorem C4_upsert_roundtrip (payload : PartUpsertPayload) (allowCreate : Bool) (db : Db)
    (p : PartRow) (t : ℕ)
    (h1 : jsTrim payload.partNumber ≠ "")
    (hex : db.partmaster.find? (fun r => r.partNumber == jsTrim payload.partNumber) =
      some p)
    (h3 : payload.partTypeId = some t)
    (h4 : t ≠ 0)
    (h5 : normalizeAttributes payload.attributes (resolveAttributeDefinitions db t) =
      .ok (payload.attributes.map (fun a => (a.attributeId, a.value))))
    (h6 : (if (resolveAttributeDefinitions db t).isEmpty then Except.ok ()
           else assertRequiredAttributes
             (payload.attributes.map (fun a => (a.attributeId, a.value)))
             (resolveAttributeDefinitions db t)) = .ok ()) :
    ∃ d db', upsertPart payload allowCreate db = (.ok d, db')
      ∧ getPartDetail db' (jsTrim payload.partNumber) = some d
      ∧ d.attributes.map (fun a => (a.attributeId, a.value)) =
          payload.attributes.map (fun a => (a.attributeId, a.value)) := by
  have hp : p.partNumber = jsTrim payload.partNumber := by
    simpa using List.find?_some hex
  simp only [upsertPart, if_neg h1, hex, h3, if_neg h4, h5, h6, Option.isNone_some,
    Bool.false_and, Bool.false_eq_true, if_false]
  obtain ⟨d, hd, hattrs⟩ := getPartDetail_of_find
    (List.map (fun r =>
      if (r.partNumber == jsTrim payload.partNumber) = true then
        { pkey := p.pkey, partNumber := jsTrim payload.partNumber,
          descText := orNullField payload.description,
          revision := orNullField payload.revision,
          stockUom := orNullField payload.stockUom,
          isc := orNullField payload.status,
          partTypeId := some t }
      else r) db.partmaster)
    (List.filter (fun r => r.pkey != p.pkey) db.partData ++
      List.map (fun a =>
        { pkey := p.pkey, attributeId := a.1,
          value := if a.2 = "" then none else some a.2 })
        (payload.attributes.map (fun a => (a.attributeId, a.value))))
    db.attributeTable db.attrTypeMap db.nextPkey
    (jsTrim payload.partNumber)
    { pkey := p.pkey, partNumber := jsTrim payload.partNumber,
      descText := orNullField payload.description,
      revision := orNullField payload.revision,
      stockUom := orNullField payload.stockUom,
      isc := orNullField payload.status,
      partTypeId := some t }
    (jsTrim_idem _) h1
    (find?_map_update db.partmaster (jsTrim payload.partNumber) p _ hex rfl)
  rw [hp, hd]
  refine ⟨d, _, rfl, hd, ?_⟩
  rw [hattrs]
  rw [List.filter_append]
  have hleft : (db.partData.filter (fun r => r.pkey != p.pkey)).filter
      (fun r => r.pkey == p.pkey) = [] := by
    rw [List.filter_filter]
    apply List.filter_eq_nil_iff.mpr
    intro r hr
    by_cases h : (r.pkey == p.pkey) = true
    · simp [bne, h]
    · simp [h]
  have hright : (List.map (fun a =>
      ({ pkey := p.pkey, attributeId := a.1,
         value := if a.2 = "" then none else some a.2 } : PartDataRow))
      (payload.attributes.map (fun a => (a.attributeId, a.value)))).filter
        (fun r => r.pkey == p.pkey) =
      List.map (fun a =>
        ({ pkey := p.pkey, attributeId := a.1,
           value := if a.2 = "" then none else some a.2 } : PartDataRow))
        (payload.attributes.map (fun a => (a.attributeId, a.value))) := by
    apply List.filter_eq_self.mpr
    intro r hr
    obtain ⟨a, _, rfl⟩ := List.mem_map.mp hr
    exact beq_self_eq_true p.pkey
  rw [hleft, hright, List.nil_append]
  simp only [List.map_map]
  apply List.map_congr_left
  intro a _
  simp only [Function.comp_apply]
  rw [getD_orNull]

/-- Witness for C4: on a store where part `P1` holds a stale attribute row
(attribute 9), upserting `P1` with attributes `{1: "SMD", 2: "hello"}` reads
back exactly those two pairs — the stale row is gone. -/
theorem C4_upsert_roundtrip_witness :
    ∃ d db', upsertPart
        ⟨"P1", some "newdesc", none, none, none, some 3, [⟨1, "SMD"⟩, ⟨2, "hello"⟩]⟩ true
        ⟨[⟨5, "P1", some "old", none, none, none, some 3⟩], [⟨5, 9, some "stale"⟩],
         [⟨1, some "Subtype", some "enum('SMD','THT')", none, none, none, some "yes"⟩,
          ⟨2, some "Notes", none, none, none, none, none⟩], [⟨3, 1⟩, ⟨3, 2⟩], 6⟩ =
      (.ok d, db')
      ∧ getPartDetail db' (jsTrim "P1") = some d
      ∧ d.attributes.map (fun a => (a.attributeId, a.value)) =
          ([⟨1, "SMD"⟩, ⟨2, "hello"⟩] : List PayloadAttribute).map
            (fun a => (a.attributeId, a.value)) :=
  C4_upsert_roundtrip
    ⟨"P1", some "newdesc", none, none, none, some 3, [⟨1, "SMD"⟩, ⟨2, "hello"⟩]⟩ true
    ⟨[⟨5, "P1", some "old", none, none, none, some 3⟩], [⟨5, 9, some "stale"⟩],
     [⟨1, some "Subtype", some "enum('SMD','THT')", none, none, none, some "yes"⟩,
      ⟨2, some "Notes", none, none, none, none, none⟩], [⟨3, 1⟩, ⟨3, 2⟩], 6⟩
    ⟨5, "P1", some "old", none, none, none, some 3⟩ 3
    (by decide) rfl rfl (by decide) rfl rfl

end MRP
